import Mathlib

/-!
Shallow embedding of the anvil dev-node supervisor from
`ethers-core/src/utils/anvil.rs`, together with the pieces of
`ethers-core/src/utils/mod.rs` it relies on.  Lines of the child
process startup stream are modelled as lists of characters (the stream
is ASCII, so Rust byte indexing coincides with character indexing), and
the blocking read loop is modelled as a fold over a finite list of
events `(elapsed, line)`, where `elapsed` is the wall-clock time in
milliseconds observed by the deadline check of that iteration.  Each
`expect`/`panic!` site of the source is reflected as an explicit error
value.
-/

namespace EthersAnvil

/-- Value of a single hex character, mirroring the per-character lookup
performed by `hex::decode` (digits, lowercase and uppercase letters). -/
def hexDigit? (c : Char) : Option Nat :=
  if '0' ≤ c ∧ c ≤ '9' then some (c.toNat - '0'.toNat)
  else if 'a' ≤ c ∧ c ≤ 'f' then some (c.toNat - 'a'.toNat + 10)
  else if 'A' ≤ c ∧ c ≤ 'F' then some (c.toNat - 'A'.toNat + 10)
  else none

/-- Embedding of `hex::decode`: fails on input of odd length or on any
non-hex character, otherwise turns each pair of characters into a
byte. -/
def hexDecode : List Char → Option (List Nat)
  | [] => some []
  | [_] => none
  | c1 :: c2 :: rest => do
    let hi ← hexDigit? c1
    let lo ← hexDigit? c2
    let tail ← hexDecode rest
    pure ((16 * hi + lo) :: tail)

/-- Big-endian interpretation of a byte list as a natural number. -/
def beNat (bs : List Nat) : Nat := bs.foldl (fun acc b => 256 * acc + b) 0

/-- Order of the secp256k1 group. -/
def secpOrder : Nat :=
  0xFFFFFFFFFFFFFFFFFFFFFFFFFFFFFFFEBAAEDCE6AF48A03BBFD25E8CD0364141

/-- Embedding of `k256::SecretKey::from_be_bytes` (an external crate
function): it accepts exactly 32 bytes whose big-endian value is a
nonzero scalar below the secp256k1 group order. -/
def secretKeyFromBeBytes (bs : List Nat) : Option Nat :=
  if bs.length = 32 ∧ 0 < beNat bs ∧ beNat bs < secpOrder then some (beNat bs)
  else none

/-- Decoding of the payload of a key announcement line: the hex decode
followed by the secret key construction, exactly the two fallible steps
of anvil.rs lines 195-196. -/
def decodePayload (p : List Char) : Option Nat :=
  (hexDecode p).bind secretKeyFromBeBytes

/-- Decoding of a whole list of payloads, in order; `none` as soon as a
single payload fails. -/
def decodePayloads : List (List Char) → Option (List Nat)
  | [] => some []
  | p :: ps => do
    let k ← decodePayload p
    let ks ← decodePayloads ps
    pure (k :: ks)

/-- Embedding of `str::contains` for a substring pattern: `needle`
occurs contiguously somewhere in `hay`. -/
def strContains : List Char → List Char → Bool
  | [], needle => needle.isEmpty
  | c :: t, needle => needle.isPrefixOf (c :: t) || strContains t needle

/-- Embedding of the `Anvil` builder struct (anvil.rs lines 79-86). -/
structure Anvil where
  port : Option Nat
  block_time : Option Nat
  mnemonic : Option String
  fork : Option String
  args : List String
deriving DecidableEq

/-- Port resolution in `Anvil::spawn` (anvil.rs line 151): the
configured port if any, otherwise the value found by `unused_port`
(whose probe result is passed in as `probed`). -/
def Anvil.resolvedPort (cfg : Anvil) (probed : Nat) : Nat :=
  cfg.port.getD probed

/-- Embedding of the command line construction in `Anvil::spawn`
(anvil.rs lines 149-166): flags are appended in the order the source
pushes them onto the `Command`. -/
def Anvil.buildArgs (cfg : Anvil) (probed : Nat) : List String :=
  let args0 : List String := ["-p", toString (cfg.resolvedPort probed)]
  let args1 := match cfg.mnemonic with
    | some m => args0 ++ ["-m", m]
    | none => args0
  let args2 := match cfg.block_time with
    | some b => args1 ++ ["-b", toString b]
    | none => args1
  let args3 := match cfg.fork with
    | some f => args2 ++ ["-f", f]
    | none => args2
  args3 ++ cfg.args

/-- Command line as the specification words it: fixed flag order
`-p <port>`, then optionally `-m <mnemonic>`, then optionally
`-b <blockTime>`, then optionally `-f <forkSource>`, then the extra
arguments verbatim.  Stated separately from `Anvil.buildArgs` so the
two can be compared. -/
def specCommandLine (cfg : Anvil) (probed : Nat) : List String :=
  ["-p", toString (cfg.resolvedPort probed)]
    ++ (cfg.mnemonic.elim [] fun m => ["-m", m])
    ++ (cfg.block_time.elim [] fun b => ["-b", toString b])
    ++ (cfg.fork.elim [] fun f => ["-f", f])
    ++ cfg.args

/-- Panic sites of the scan loop of `Anvil::spawn`, reflected as error
values. -/
inductive SpawnPanic
  | startupTimeout
  | hexDecodeFailed
  | invalidSecretKey
  | sliceIndexOutOfRange
deriving DecidableEq

/-- The two panics raised while decoding a key announcement line
(anvil.rs lines 195-196), i.e. the `KeyParseError` class of the
specification. -/
def SpawnPanic.isKeyParse : SpawnPanic → Bool
  | .hexDecodeFailed => true
  | .invalidSecretKey => true
  | _ => false

/-- Mutable state of the startup scan loop (anvil.rs lines 175-177):
the `is_private_key` flag and the two accumulated lists.  The address
type is a parameter `α` because the derivation function is abstracted
(see `processLine`). -/
structure ScanState (α : Type) where
  is_private_key : Bool
  private_keys : List Nat
  addresses : List α
deriving DecidableEq

/-- Result of one iteration of the scan loop body. -/
inductive StepResult (α : Type)
  | ready (st : ScanState α)
  | next (st : ScanState α)
  | fatal (e : SpawnPanic)
deriving DecidableEq

def listeningMarker : List Char := "Listening on".toList

def privateKeysMarker : List Char := "Private Keys".toList

/-- One iteration of the scan loop body (anvil.rs lines 185-199) on a
single line, parameterised by the address derivation function `ska`
standing for `secret_key_to_address` (mod.rs lines 145-152, whose body
combines the external `k256` crate with the repository's keccak hash
module, not present under src/). -/
def processLine {α : Type} (ska : Nat → α) (st : ScanState α) (line : List Char) :
    StepResult α :=
  if strContains line listeningMarker then .ready st
  else
    let st1 := if privateKeysMarker.isPrefixOf line then
      { st with is_private_key := true } else st
    if st1.is_private_key ∧ line.head? = some '(' then
      if line.length < 7 then .fatal .sliceIndexOutOfRange
      else
        match hexDecode ((line.drop 6).take (line.length - 7)) with
        | none => .fatal .hexDecodeFailed
        | some key_hex =>
          match secretKeyFromBeBytes key_hex with
          | none => .fatal .invalidSecretKey
          | some key =>
            .next { st1 with
              addresses := st1.addresses ++ [ska key],
              private_keys := st1.private_keys ++ [key] }
    else .next st1

/-- The startup deadline of anvil.rs line 13, in milliseconds. -/
def ANVIL_STARTUP_TIMEOUT_MILLIS : Nat := 5000

/-- Outcome of running the scan loop over a finite event trace. -/
inductive ScanOutcome (α : Type)
  | ready (st : ScanState α)
  | timeout
  | fatal (e : SpawnPanic)
  | exhausted (st : ScanState α)
deriving DecidableEq

/-- The scan loop of `Anvil::spawn` (anvil.rs lines 178-200) over a
finite trace of events; each event pairs the elapsed milliseconds
observed by the deadline check of that iteration with the line
subsequently read.  A trace that ends before readiness, timeout or a
panic is reported as `exhausted` (the source would keep blocking on
further reads). -/
def scanLoop {α : Type} (ska : Nat → α) :
    List (Nat × List Char) → ScanState α → ScanOutcome α
  | [], st => .exhausted st
  | (now, line) :: rest, st =>
    if ANVIL_STARTUP_TIMEOUT_MILLIS ≤ now then .timeout
    else
      match processLine ska st line with
      | .ready st1 => .ready st1
      | .fatal e => .fatal e
      | .next st1 => scanLoop ska rest st1

/-- Embedding of the `AnvilInstance` struct (anvil.rs lines 18-23); the
process handle itself carries no data relevant to the claims. -/
structure AnvilInstance (α : Type) where
  private_keys : List Nat
  addresses : List α
  port : Nat
deriving DecidableEq

/-- Accessor `AnvilInstance::keys` (anvil.rs lines 27-29). -/
def AnvilInstance.keys {α : Type} (inst : AnvilInstance α) : List Nat :=
  inst.private_keys

/-- Accessor `AnvilInstance::endpoint` (anvil.rs lines 42-44). -/
def AnvilInstance.endpoint {α : Type} (inst : AnvilInstance α) : String :=
  "http://localhost:" ++ toString inst.port

/-- Accessor `AnvilInstance::ws_endpoint` (anvil.rs lines 47-49). -/
def AnvilInstance.ws_endpoint {α : Type} (inst : AnvilInstance α) : String :=
  "ws://localhost:" ++ toString inst.port

/-- Whether the spawned child process has been sent a kill signal. -/
inductive ProcState
  | running
  | killed
deriving DecidableEq

/-- Overall outcome of `Anvil::spawn` on a trace.  `panicked` records
the state of the child process when the panic propagates. -/
inductive SpawnOutcome (α : Type)
  | success (inst : AnvilInstance α)
  | panicked (e : SpawnPanic) (childAfter : ProcState)
  | undetermined (st : ScanState α)
deriving DecidableEq

/-- Embedding of `Anvil::spawn` (anvil.rs lines 148-205): resolve the
port, run the startup scan over the given event trace and package the
result.  On every panic path the source performs no kill of the child
(and the standard library `Child` destructor does not kill the process
either), so `childAfter` is `running` there. -/
def Anvil.spawn {α : Type} (ska : Nat → α) (cfg : Anvil) (probed : Nat)
    (events : List (Nat × List Char)) : SpawnOutcome α :=
  let port := cfg.resolvedPort probed
  match scanLoop ska events ⟨false, [], []⟩ with
  | .ready st => .success ⟨st.private_keys, st.addresses, port⟩
  | .timeout => .panicked .startupTimeout .running
  | .fatal e => .panicked e .running
  | .exhausted st => .undetermined st

/-- Result of the operating-system kill of the child process. -/
inductive KillOutcome
  | success
  | failure
deriving DecidableEq

/-- Process-control actions a piece of code can issue. -/
inductive ProcAction
  | kill
deriving DecidableEq

/-- Outcome of the destructor body. -/
inductive DropOutcome
  | returned
  | panickedCouldNotKill
deriving DecidableEq

/-- Embedding of `impl Drop for AnvilInstance` (anvil.rs lines 52-56):
the destructor always issues exactly one kill of the owned child and
`expect`s the result, so a failed kill escalates to a panic instead of
being swallowed. -/
def AnvilInstance.drop {α : Type} (_inst : AnvilInstance α) (kr : KillOutcome) :
    List ProcAction × DropOutcome :=
  ([ProcAction.kill],
    match kr with
    | .success => .returned
    | .failure => .panickedCouldNotKill)

/-- Key announcement line with an explicit index digit string, following
the startup stream contract: `(<index>) 0x<hex payload>` plus the
newline kept by `read_line`. -/
def keyLineD (ds p : List Char) : List Char :=
  '(' :: (ds ++ (") 0x".toList ++ (p ++ ['\n'])))

/-- Key announcement line with a decimal index. -/
def keyLine (i : Nat) (p : List Char) : List Char :=
  keyLineD (toString i).toList p

def headerLine : List Char := "Private Keys".toList ++ ['\n']

def readyLine : List Char := "Listening on 127.0.0.1:8545".toList ++ ['\n']

/-- Events announcing the given payloads with consecutive indices
starting at `i`, all read well before the deadline. -/
def keyEvents (i : Nat) : List (List Char) → List (Nat × List Char)
  | [] => []
  | p :: ps => (0, keyLine i p) :: keyEvents (i + 1) ps

/-- Scripted startup stream of the contract shape: the key header, then
the indexed key lines, then a ready line. -/
def mkStream (payloads : List (List Char)) : List (Nat × List Char) :=
  (0, headerLine) :: (keyEvents 0 payloads ++ [(0, readyLine)])

/-- Empty builder configuration, as produced by `Anvil::new`. -/
def cfgDefault : Anvil := ⟨none, none, none, none, []⟩


theorem isPrefixOf_subset {n h : List Char} (hp : n.isPrefixOf h = true) :
    ∀ c ∈ n, c ∈ h := by
  induction n generalizing h with
  | nil => intro c hc; cases hc
  | cons a t ih =>
    cases h with
    | nil =>
      rw [show ((a :: t).isPrefixOf ([] : List Char)) = false from rfl] at hp
      cases hp
    | cons b hb =>
      rw [show ((a :: t).isPrefixOf (b :: hb)) = (a == b && t.isPrefixOf hb) from rfl,
        Bool.and_eq_true, beq_iff_eq] at hp
      obtain ⟨rfl, hp2⟩ := hp
      intro c hc
      rcases List.mem_cons.mp hc with rfl | hc
      · exact List.mem_cons_self _ _
      · exact List.mem_cons_of_mem _ (ih hp2 c hc)

theorem isPrefixOf_length_le {n h : List Char} (hp : n.isPrefixOf h = true) :
    n.length ≤ h.length := by
  induction n generalizing h with
  | nil => simp
  | cons a t ih =>
    cases h with
    | nil =>
      rw [show ((a :: t).isPrefixOf ([] : List Char)) = false from rfl] at hp
      cases hp
    | cons b hb =>
      rw [show ((a :: t).isPrefixOf (b :: hb)) = (a == b && t.isPrefixOf hb) from rfl,
        Bool.and_eq_true] at hp
      simpa using Nat.succ_le_succ (ih hp.2)

theorem strContains_subset {hay needle : List Char}
    (hc : strContains hay needle = true) : ∀ c ∈ needle, c ∈ hay := by
  induction hay with
  | nil =>
    intro c hcn
    simp [strContains, List.isEmpty_iff] at hc
    subst hc; cases hcn
  | cons a t ih =>
    rw [strContains, Bool.or_eq_true] at hc
    intro c hcn
    rcases hc with hc | hc
    · exact isPrefixOf_subset hc c hcn
    · exact List.mem_cons_of_mem _ (ih hc c hcn)

theorem strContains_eq_false_of_not_mem {hay needle : List Char} {c : Char}
    (hcn : c ∈ needle) (hch : c ∉ hay) : strContains hay needle = false := by
  cases hq : strContains hay needle with
  | false => rfl
  | true => exact absurd (strContains_subset hq c hcn) hch

theorem strContains_eq_false_of_length {hay needle : List Char}
    (h : hay.length < needle.length) : strContains hay needle = false := by
  induction hay with
  | nil =>
    cases needle with
    | nil => simp at h
    | cons a t => simp [strContains, List.isEmpty]
  | cons a t ih =>
    rw [strContains]
    have h1 : needle.isPrefixOf (a :: t) = false := by
      cases hq : needle.isPrefixOf (a :: t) with
      | false => rfl
      | true =>
        have := isPrefixOf_length_le hq
        simp only [List.length_cons] at this h
        omega
    have h2 : strContains t needle = false := by
      apply ih
      simp only [List.length_cons] at h
      omega
    simp [h1, h2]

theorem hexDecode_all_hex : ∀ {p : List Char} {bs : List Nat},
    hexDecode p = some bs → ∀ c ∈ p, (hexDigit? c).isSome
  | [], _, _, c, hc => by cases hc
  | [c0], bs, hd, c, hc => by simp [hexDecode] at hd
  | c1 :: c2 :: rest, bs, hd, c, hc => by
    rw [hexDecode] at hd
    simp only [Option.bind_eq_bind, Option.bind_eq_some, Option.pure_def,
      Option.some.injEq] at hd
    obtain ⟨hi, h1, lo, h2, tail, h3, _⟩ := hd
    rcases List.mem_cons.mp hc with rfl | hc
    · simp [h1]
    · rcases List.mem_cons.mp hc with rfl | hc
      · simp [h2]
      · exact hexDecode_all_hex h3 c hc

theorem hexDecode_eq_none {p : List Char} {c : Char} (hc : c ∈ p)
    (hn : hexDigit? c = none) : hexDecode p = none := by
  cases hq : hexDecode p with
  | none => rfl
  | some bs =>
    have := hexDecode_all_hex hq c hc
    rw [hn] at this
    simp at this



theorem scanLoop_append {α : Type} (ska : Nat → α) (e1 e2 : List (Nat × List Char))
    (st : ScanState α) :
    scanLoop ska (e1 ++ e2) st =
      match scanLoop ska e1 st with
      | .exhausted st1 => scanLoop ska e2 st1
      | .ready st1 => .ready st1
      | .timeout => .timeout
      | .fatal e => .fatal e := by
  induction e1 generalizing st with
  | nil => simp [scanLoop]
  | cons ev rest ih =>
    obtain ⟨now, line⟩ := ev
    by_cases h : ANVIL_STARTUP_TIMEOUT_MILLIS ≤ now
    · simp [scanLoop, h]
    · simp only [List.cons_append, scanLoop, if_neg h]
      cases processLine ska st line <;> simp [ih]

theorem keyEvents_append (i : Nat) (l1 l2 : List (List Char)) :
    keyEvents i (l1 ++ l2) = keyEvents i l1 ++ keyEvents (i + l1.length) l2 := by
  induction l1 generalizing i with
  | nil => simp [keyEvents]
  | cons p ps ih =>
    simp only [List.cons_append, keyEvents, List.append_eq, List.length_cons]
    rw [ih, show i + 1 + ps.length = i + (ps.length + 1) by omega]

theorem privateKeys_not_prefixOf_paren (l : List Char) :
    privateKeysMarker.isPrefixOf ('(' :: l) = false := rfl

/-- Any line containing the ready marker makes the loop break,
whatever the current state. -/
theorem ready_step {α : Type} (ska : Nat → α) (st : ScanState α) {line : List Char}
    (h : strContains line listeningMarker = true) :
    processLine ska st line = .ready st := by
  simp [processLine, h]

theorem header_step {α : Type} (ska : Nat → α) (st : ScanState α) {line : List Char}
    (hnl : strContains line listeningMarker = false)
    (hp : privateKeysMarker.isPrefixOf line = true) :
    processLine ska st line = .next { st with is_private_key := true } := by
  have hd : line.head? = some 'P' := by
    cases line with
    | nil => cases hp
    | cons a t =>
      rw [show (privateKeysMarker.isPrefixOf (a :: t)) =
        (('P' == a) && ("rivate Keys".toList.isPrefixOf t)) from rfl,
        Bool.and_eq_true, beq_iff_eq] at hp
      rw [hp.1]
      rfl
  have hne : ¬(line.head? = some '(') := by
    rw [hd]; intro hcon; cases hcon
  simp [processLine, hnl, hp, hne]

theorem t_mem_listeningMarker : 't' ∈ listeningMarker := by decide

theorem t_not_mem_toString {i : Nat} (h : i ≤ 9) : 't' ∉ (toString i).toList := by
  interval_cases i <;> decide

theorem toString_toList_le9 {i : Nat} (h : i ≤ 9) :
    ∃ d : Char, (toString i).toList = [d] ∧ (hexDigit? d).isSome := by
  interval_cases i <;> exact ⟨_, rfl, by decide⟩


theorem not_prefixOf_of_head_paren {line : List Char} (hh : line.head? = some '(') :
    privateKeysMarker.isPrefixOf line = false := by
  cases line with
  | nil => cases hh
  | cons a t =>
    have ha : a = '(' := by simpa using hh
    subst ha
    exact privateKeys_not_prefixOf_paren t

theorem decodePayload_inv {p : List Char} {k : Nat} (hp : decodePayload p = some k) :
    ∃ bs, hexDecode p = some bs ∧ secretKeyFromBeBytes bs = some k := by
  unfold decodePayload at hp
  cases hq : hexDecode p with
  | none => rw [hq] at hp; cases hp
  | some bs => rw [hq] at hp; exact ⟨bs, rfl, hp⟩

theorem mem_keyLineD {c : Char} {ds p : List Char} (hc : c ∈ keyLineD ds p) :
    c = '(' ∨ c ∈ ds ∨ c ∈ ") 0x".toList ∨ c ∈ p ∨ c = '\n' := by
  simp only [keyLineD, List.mem_cons, List.mem_append, List.mem_singleton] at hc
  tauto

theorem processLine_keyLineD_single {α : Type} (ska : Nat → α) (st : ScanState α)
    {d : Char} {p : List Char} {k : Nat}
    (hf : st.is_private_key = true)
    (hd : (hexDigit? d).isSome)
    (hp : decodePayload p = some k) :
    processLine ska st (keyLineD [d] p) =
      .next { st with private_keys := st.private_keys ++ [k],
                      addresses := st.addresses ++ [ska k] } := by
  obtain ⟨bs, hb, hk⟩ := decodePayload_inv hp
  have hnl : strContains (keyLineD [d] p) listeningMarker = false := by
    apply strContains_eq_false_of_not_mem t_mem_listeningMarker
    intro hmem
    rcases mem_keyLineD hmem with h1 | h1 | h1 | h1 | h1
    · exact absurd h1 (by decide)
    · rw [List.mem_singleton] at h1
      rw [← h1] at hd; exact absurd hd (by decide)
    · exact absurd h1 (by decide)
    · exact absurd (hexDecode_all_hex hb 't' h1) (by decide)
    · exact absurd h1 (by decide)
  have hpre : privateKeysMarker.isPrefixOf (keyLineD [d] p) = false :=
    not_prefixOf_of_head_paren rfl
  have hhead : (keyLineD [d] p).head? = some '(' := rfl
  have hlen : (keyLineD [d] p).length = 7 + p.length := by
    simp [keyLineD]
    omega
  have hnlt : ¬((keyLineD [d] p).length < 7) := by omega
  have hslice : ((keyLineD [d] p).drop 6).take ((keyLineD [d] p).length - 7) = p := by
    rw [hlen, show ((keyLineD [d] p).drop 6) = p ++ ['\n'] from rfl,
      show 7 + p.length - 7 = p.length by omega]
    exact List.take_left p ['\n']
  simp [processLine, hnl, hpre, hf, hhead, hnlt, hslice, hb, hk]

theorem processLine_keyLine {α : Type} (ska : Nat → α) (st : ScanState α)
    {i : Nat} {p : List Char} {k : Nat}
    (hf : st.is_private_key = true) (hi : i ≤ 9)
    (hp : decodePayload p = some k) :
    processLine ska st (keyLine i p) =
      .next { st with private_keys := st.private_keys ++ [k],
                      addresses := st.addresses ++ [ska k] } := by
  obtain ⟨d, hdl, hd⟩ := toString_toList_le9 hi
  rw [keyLine, hdl]
  exact processLine_keyLineD_single ska st hf hd hp


theorem processLine_short_paren {α : Type} (ska : Nat → α) (st : ScanState α)
    {line : List Char} (hf : st.is_private_key = true)
    (hh : line.head? = some '(') (hl : line.length < 7) :
    processLine ska st line = .fatal .sliceIndexOutOfRange := by
  have hnl : strContains line listeningMarker = false :=
    strContains_eq_false_of_length
      (by rw [show listeningMarker.length = 12 from rfl]; omega)
  have hpre : privateKeysMarker.isPrefixOf line = false :=
    not_prefixOf_of_head_paren hh
  simp [processLine, hnl, hpre, hf, hh, hl]

theorem processLine_malformed {α : Type} (ska : Nat → α) (st : ScanState α)
    {line : List Char} (hf : st.is_private_key = true)
    (hh : line.head? = some '(')
    (hnl : strContains line listeningMarker = false)
    (hl : 7 ≤ line.length)
    (hdec : decodePayload ((line.drop 6).take (line.length - 7)) = none) :
    ∃ e, processLine ska st line = .fatal e ∧ e.isKeyParse = true := by
  have hpre : privateKeysMarker.isPrefixOf line = false :=
    not_prefixOf_of_head_paren hh
  have hnlt : ¬(line.length < 7) := by omega
  rcases hq : hexDecode ((line.drop 6).take (line.length - 7)) with _ | bs
  · exact ⟨.hexDecodeFailed, by simp [processLine, hnl, hpre, hf, hh, hnlt, hq], rfl⟩
  · have hsk : secretKeyFromBeBytes bs = none := by
      unfold decodePayload at hdec
      rw [hq] at hdec
      exact hdec
    exact ⟨.invalidSecretKey,
      by simp [processLine, hnl, hpre, hf, hh, hnlt, hq, hsk], rfl⟩

theorem x_mem_drop_le3 {m : Nat} (hm : m ≤ 3) :
    'x' ∈ List.drop m [')', ' ', '0', 'x'] := by
  interval_cases m <;> decide

theorem processLine_keyLineD_two_digits {α : Type} (ska : Nat → α) (st : ScanState α)
    {ds p : List Char} {k : Nat}
    (hf : st.is_private_key = true) (hd2 : 2 ≤ ds.length)
    (hdig : ∀ c ∈ ds, c.isDigit = true)
    (hp : decodePayload p = some k) :
    processLine ska st (keyLineD ds p) = .fatal .hexDecodeFailed := by
  obtain ⟨bs, hb, -⟩ := decodePayload_inv hp
  have hnl : strContains (keyLineD ds p) listeningMarker = false := by
    apply strContains_eq_false_of_not_mem t_mem_listeningMarker
    intro hmem
    rcases mem_keyLineD hmem with h1 | h1 | h1 | h1 | h1
    · exact absurd h1 (by decide)
    · have := hdig 't' h1
      exact absurd this (by decide)
    · exact absurd h1 (by decide)
    · exact absurd (hexDecode_all_hex hb 't' h1) (by decide)
    · exact absurd h1 (by decide)
  have hpre : privateKeysMarker.isPrefixOf (keyLineD ds p) = false :=
    not_prefixOf_of_head_paren rfl
  have hhead : (keyLineD ds p).head? = some '(' := rfl
  have hlen : (keyLineD ds p).length = 6 + ds.length + p.length := by
    simp [keyLineD]
    omega
  have hnlt : ¬((keyLineD ds p).length < 7) := by omega
  have hxmem : 'x' ∈ ((keyLineD ds p).drop 6).take ((keyLineD ds p).length - 7) := by
    have hline : keyLineD ds p =
        (('(' :: ds) ++ [')', ' ', '0', 'x']) ++ (p ++ ['\n']) := by
      simp [keyLineD]
    rw [hline, List.drop_append_eq_append_drop]
    have hfl : (('(' :: ds) ++ [')', ' ', '0', 'x']).length = ds.length + 5 := by
      simp
    have h60 : 6 - (('(' :: ds) ++ [')', ' ', '0', 'x']).length = 0 := by
      rw [hfl]; omega
    rw [h60, List.drop_zero]
    rw [show List.drop 6 (('(' :: ds) ++ [')', ' ', '0', 'x']) =
      List.drop 6 ('(' :: ds) ++ List.drop (6 - ('(' :: ds).length) [')', ' ', '0', 'x']
      from List.drop_append_eq_append_drop]
    have h6d : 6 - ('(' :: ds).length = 5 - ds.length := by simp
    rw [h6d]
    have hxin : 'x' ∈ List.drop 6 ('(' :: ds) ++
        List.drop (5 - ds.length) [')', ' ', '0', 'x'] :=
      List.mem_append.mpr (Or.inr (x_mem_drop_le3 (by omega)))
    have hdl : (List.drop 6 ('(' :: ds) ++
        List.drop (5 - ds.length) [')', ' ', '0', 'x']).length ≤
        (keyLineD ds p).length - 7 := by
      simp [List.length_drop, hlen]
      omega
    rw [List.take_append_eq_append_take]
    refine List.mem_append.mpr (Or.inl ?_)
    rw [List.take_of_length_le ?hle]
    · exact hxin
    · rw [hline] at hdl
      exact hdl
  have hdecn : hexDecode ((keyLineD ds p).drop 6 |>.take ((keyLineD ds p).length - 7))
      = none := hexDecode_eq_none hxmem (by decide)
  simp [processLine, hnl, hpre, hf, hhead, hnlt, hdecn]



theorem decodePayloads_cons_inv {p : List Char} {ps : List (List Char)} {ks : List Nat}
    (h : decodePayloads (p :: ps) = some ks) :
    ∃ k ks2, decodePayload p = some k ∧ decodePayloads ps = some ks2 ∧
      ks = k :: ks2 := by
  rw [decodePayloads] at h
  simp only [Option.bind_eq_bind, Option.bind_eq_some, Option.pure_def,
    Option.some.injEq] at h
  obtain ⟨k, hk, ks2, hks2, hks⟩ := h
  exact ⟨k, ks2, hk, hks2, hks.symm⟩

theorem decodePayloads_length {ps : List (List Char)} {ks : List Nat}
    (h : decodePayloads ps = some ks) : ks.length = ps.length := by
  induction ps generalizing ks with
  | nil =>
    simp [decodePayloads] at h
    subst h
    rfl
  | cons p ps ih =>
    obtain ⟨k, ks2, hk, hks2, rfl⟩ := decodePayloads_cons_inv h
    simp [ih hks2]

theorem decodePayloads_get {ps : List (List Char)} {ks : List Nat}
    (h : decodePayloads ps = some ks) :
    ∀ i (hi : i < ps.length) (hk : i < ks.length),
      decodePayload (ps.get ⟨i, hi⟩) = some (ks.get ⟨i, hk⟩) := by
  induction ps generalizing ks with
  | nil =>
    intro i hi
    exact absurd hi (by simp)
  | cons p ps ih =>
    obtain ⟨k, ks2, hkp, hks2, rfl⟩ := decodePayloads_cons_inv h
    intro i hi hk2
    cases i with
    | zero => simpa using hkp
    | succ j =>
      simpa using ih hks2 j (by simpa using hi) (by simpa using hk2)

theorem decodePayloads_append_inv {l1 l2 : List (List Char)} {ks : List Nat}
    (h : decodePayloads (l1 ++ l2) = some ks) :
    ∃ ks1 ks2, decodePayloads l1 = some ks1 ∧ decodePayloads l2 = some ks2 ∧
      ks = ks1 ++ ks2 := by
  induction l1 generalizing ks with
  | nil => exact ⟨[], ks, rfl, h, rfl⟩
  | cons p ps ih =>
    rw [List.cons_append] at h
    obtain ⟨k, ks2, hk, hks2, rfl⟩ := decodePayloads_cons_inv h
    obtain ⟨a1, a2, ha1, ha2, rfl⟩ := ih hks2
    refine ⟨k :: a1, a2, ?_, ha2, rfl⟩
    rw [decodePayloads, hk, ha1]
    rfl

theorem scanLoop_keyEvents {α : Type} (ska : Nat → α) (payloads : List (List Char)) :
    ∀ (ks : List Nat) (i : Nat) (st : ScanState α),
      st.is_private_key = true → i + payloads.length ≤ 10 →
      decodePayloads payloads = some ks →
      scanLoop ska (keyEvents i payloads) st =
        .exhausted { st with private_keys := st.private_keys ++ ks,
                             addresses := st.addresses ++ ks.map ska } := by
  induction payloads with
  | nil =>
    intro ks i st hf hle hdec
    simp [decodePayloads] at hdec
    subst hdec
    simp [keyEvents, scanLoop]
  | cons p ps ih =>
    intro ks i st hf hle hdec
    obtain ⟨k, ks2, hk, hks2, rfl⟩ := decodePayloads_cons_inv hdec
    have h0 : ¬(ANVIL_STARTUP_TIMEOUT_MILLIS ≤ 0) := by decide
    have hle2 : i + 1 + ps.length ≤ 10 := by
      simp only [List.length_cons] at hle
      omega
    have hstep := ih ks2 (i + 1)
      { st with private_keys := st.private_keys ++ [k],
                addresses := st.addresses ++ [ska k] }
      (by simpa using hf) hle2 hks2
    rw [keyEvents]
    simp only [scanLoop, if_neg h0]
    rw [processLine_keyLine ska st hf (by omega) hk]
    change scanLoop ska (keyEvents (i + 1) ps) _ = _
    rw [hstep]
    simp [List.append_assoc]



theorem header_or_time_zero : ¬(ANVIL_STARTUP_TIMEOUT_MILLIS ≤ 0) := by decide

theorem spawn_mkStream_success {α : Type} (ska : Nat → α) (cfg : Anvil)
    (probed : Nat) {payloads : List (List Char)} {ks : List Nat}
    (hk : payloads.length ≤ 10) (hdec : decodePayloads payloads = some ks) :
    Anvil.spawn ska cfg probed (mkStream payloads) =
      .success ⟨ks, ks.map ska, cfg.resolvedPort probed⟩ := by
  have hkeys := scanLoop_keyEvents ska payloads ks 0 ⟨true, [], []⟩ rfl
    (by omega) hdec
  simp only [Anvil.spawn, mkStream, scanLoop, if_neg header_or_time_zero]
  rw [header_step ska ⟨false, [], []⟩ (by decide) (by decide)]
  change (match scanLoop ska (keyEvents 0 payloads ++ [(0, readyLine)])
      (⟨true, [], []⟩ : ScanState α) with
    | .ready st => SpawnOutcome.success ⟨st.private_keys, st.addresses,
        cfg.resolvedPort probed⟩
    | .timeout => SpawnOutcome.panicked .startupTimeout .running
    | .fatal e => SpawnOutcome.panicked e .running
    | .exhausted st => SpawnOutcome.undetermined st) = _
  rw [scanLoop_append, hkeys]
  simp only [scanLoop, if_neg header_or_time_zero]
  rw [ready_step ska _ (by decide)]
  simp


theorem scanLoop_cons_next {α : Type} {ska : Nat → α} {t : Nat} {line : List Char}
    {st st1 : ScanState α} (rest : List (Nat × List Char))
    (ht : ¬(ANVIL_STARTUP_TIMEOUT_MILLIS ≤ t))
    (h : processLine ska st line = .next st1) :
    scanLoop ska ((t, line) :: rest) st = scanLoop ska rest st1 := by
  simp only [scanLoop, if_neg ht, h]

theorem scanLoop_cons_fatal {α : Type} {ska : Nat → α} {t : Nat} {line : List Char}
    {st : ScanState α} {e : SpawnPanic} (rest : List (Nat × List Char))
    (ht : ¬(ANVIL_STARTUP_TIMEOUT_MILLIS ≤ t))
    (h : processLine ska st line = .fatal e) :
    scanLoop ska ((t, line) :: rest) st = .fatal e := by
  simp only [scanLoop, if_neg ht, h]

theorem scanLoop_cons_ready {α : Type} {ska : Nat → α} {t : Nat} {line : List Char}
    {st st1 : ScanState α} (rest : List (Nat × List Char))
    (ht : ¬(ANVIL_STARTUP_TIMEOUT_MILLIS ≤ t))
    (h : processLine ska st line = .ready st1) :
    scanLoop ska ((t, line) :: rest) st = .ready st1 := by
  simp only [scanLoop, if_neg ht, h]

theorem scanLoop_append_exhausted {α : Type} {ska : Nat → α}
    {e1 : List (Nat × List Char)} {st st1 : ScanState α}
    (e2 : List (Nat × List Char))
    (h : scanLoop ska e1 st = .exhausted st1) :
    scanLoop ska (e1 ++ e2) st = scanLoop ska e2 st1 := by
  rw [scanLoop_append, h]

theorem spawn_eq_fatal {α : Type} (ska : Nat → α) (cfg : Anvil) (probed : Nat)
    {events : List (Nat × List Char)} {e : SpawnPanic}
    (h : scanLoop ska events ⟨false, [], []⟩ = .fatal e) :
    Anvil.spawn ska cfg probed events = .panicked e .running := by
  simp only [Anvil.spawn, h]

theorem spawn_eq_timeout {α : Type} (ska : Nat → α) (cfg : Anvil) (probed : Nat)
    {events : List (Nat × List Char)}
    (h : scanLoop ska events ⟨false, [], []⟩ = .timeout) :
    Anvil.spawn ska cfg probed events = .panicked .startupTimeout .running := by
  simp only [Anvil.spawn, h]

theorem spawn_eq_ready {α : Type} (ska : Nat → α) (cfg : Anvil) (probed : Nat)
    {events : List (Nat × List Char)} {st : ScanState α}
    (h : scanLoop ska events ⟨false, [], []⟩ = .ready st) :
    Anvil.spawn ska cfg probed events =
      .success ⟨st.private_keys, st.addresses, cfg.resolvedPort probed⟩ := by
  simp only [Anvil.spawn, h]

theorem spawn_mkStream_eleven {α : Type} (ska : Nat → α) (cfg : Anvil)
    (probed : Nat) {payloads : List (List Char)} {ks : List Nat}
    (h11 : 11 ≤ payloads.length) (hdec : decodePayloads payloads = some ks) :
    Anvil.spawn ska cfg probed (mkStream payloads) =
      .panicked .hexDecodeFailed .running := by
  have hsplit : payloads = payloads.take 10 ++ payloads.drop 10 :=
    (List.take_append_drop 10 payloads).symm
  rw [hsplit] at hdec
  obtain ⟨ks1, ks2, hks1, hks2, rfl⟩ := decodePayloads_append_inv hdec
  have hlen10 : (payloads.take 10).length = 10 := by
    rw [List.length_take]
    omega
  cases hq : payloads.drop 10 with
  | nil =>
    have := congrArg List.length hq
    simp [List.length_drop] at this
    omega
  | cons p10 rest2 =>
    rw [hq] at hks2
    obtain ⟨k10, ks3, hk10, hks3, rfl⟩ := decodePayloads_cons_inv hks2
    have hkeys := scanLoop_keyEvents ska (payloads.take 10) ks1 0
      (⟨true, [], []⟩ : ScanState α) rfl (by omega) hks1
    apply spawn_eq_fatal
    rw [mkStream]
    rw [scanLoop_cons_next _ header_or_time_zero
      (header_step ska ⟨false, [], []⟩ (by decide) (by decide))]
    rw [show keyEvents 0 payloads ++ [(0, readyLine)] =
        keyEvents 0 (payloads.take 10) ++
          (keyEvents 10 (p10 :: rest2) ++ [(0, readyLine)]) by
      conv_lhs => rw [hsplit, hq]
      rw [keyEvents_append, hlen10, List.append_assoc]]
    rw [scanLoop_append_exhausted _ hkeys]
    rw [keyEvents, List.cons_append]
    apply scanLoop_cons_fatal _ header_or_time_zero
    rw [keyLine, show (toString 10).toList = ['1', '0'] from rfl]
    exact processLine_keyLineD_two_digits ska _ rfl (by decide) (by decide) hk10



theorem processLine_inv {α : Type} {ska : Nat → α} {st : ScanState α}
    {line : List Char} {st1 : ScanState α}
    (hinv : st.addresses = st.private_keys.map ska)
    (h : processLine ska st line = .next st1 ∨
      processLine ska st line = .ready st1) :
    st1.addresses = st1.private_keys.map ska := by
  rw [processLine] at h
  by_cases hc : strContains line listeningMarker = true
  · rw [if_pos hc] at h
    rcases h with h | h
    · cases h
    · injection h with h2
      subst h2
      exact hinv
  · rw [if_neg hc] at h
    set st2 : ScanState α := if privateKeysMarker.isPrefixOf line = true then
      { st with is_private_key := true } else st with hst2
    have hinv2 : st2.addresses = st2.private_keys.map ska := by
      rw [hst2]
      split_ifs <;> simpa using hinv
    by_cases hcond : st2.is_private_key = true ∧ line.head? = some '('
    · rw [if_pos hcond] at h
      by_cases hlen : line.length < 7
      · rw [if_pos hlen] at h
        rcases h with h | h <;> cases h
      · rw [if_neg hlen] at h
        cases hq : hexDecode ((line.drop 6).take (line.length - 7)) with
        | none =>
          simp only [hq] at h
          rcases h with h | h <;> cases h
        | some bys =>
          simp only [hq] at h
          cases hq2 : secretKeyFromBeBytes bys with
          | none =>
            simp only [hq2] at h
            rcases h with h | h <;> cases h
          | some k =>
            simp only [hq2] at h
            rcases h with h | h
            · injection h with h2
              subst h2
              simp [hinv2]
            · cases h
    · rw [if_neg hcond] at h
      rcases h with h | h
      · injection h with h2
        subst h2
        exact hinv2
      · cases h

theorem scanLoop_inv {α : Type} (ska : Nat → α) (events : List (Nat × List Char)) :
    ∀ (st : ScanState α), st.addresses = st.private_keys.map ska →
      ∀ st1, scanLoop ska events st = .ready st1 →
        st1.addresses = st1.private_keys.map ska := by
  induction events with
  | nil =>
    intro st hinv st1 h
    simp [scanLoop] at h
  | cons ev rest ih =>
    obtain ⟨t, line⟩ := ev
    intro st hinv st1 h
    by_cases ht : ANVIL_STARTUP_TIMEOUT_MILLIS ≤ t
    · simp [scanLoop, if_pos ht] at h
    · simp only [scanLoop, if_neg ht] at h
      cases hq : processLine ska st line with
      | ready st2 =>
        rw [hq] at h
        injection h with h2
        subst h2
        exact processLine_inv hinv (Or.inr hq)
      | fatal e =>
        rw [hq] at h
        cases h
      | next st2 =>
        rw [hq] at h
        exact ih st2 (processLine_inv hinv (Or.inl hq)) st1 h


/-- Claim C7 (confirmed): for every configuration, the child-process
command line built by `spawn` is exactly `-p <resolved port>` first,
then `-m <mnemonic>` if set, then `-b <blockTime>` if set, then
`-f <forkSource>` if set, then all extra arguments verbatim in
insertion order. -/
theorem claim7_buildArgs_fixed_order (cfg : Anvil) (probed : Nat) :
    cfg.buildArgs probed = specCommandLine cfg probed := by
  obtain ⟨po, bt, mn, fk, ar⟩ := cfg
  cases mn <;> cases bt <;> cases fk <;>
    simp [Anvil.buildArgs, specCommandLine, List.append_assoc]

/-- Claim C8 (confirmed): the destructor of a running instance always
issues exactly one kill of the owned child process, and a failed kill
surfaces as the unrecoverable panic outcome, never as a silent
return. -/
theorem claim8_drop_kills_or_panics {α : Type} (inst : AnvilInstance α)
    (kr : KillOutcome) :
    (inst.drop kr).1 = [ProcAction.kill] ∧
      ((inst.drop kr).2 = DropOutcome.returned ↔ kr = KillOutcome.success) := by
  cases kr <;> simp [AnvilInstance.drop]

/-- Claim C5 (confirmed): in every parser state a line containing the
marker "Listening on" makes the scan transition to the terminal ready
outcome and stop reading further events, and a stream whose ready line
is preceded by zero key lines yields an instance with an empty key
list. -/
theorem claim5_listening_ready_any_state {α : Type} :
    (∀ (ska : Nat → α) (st : ScanState α) (line : List Char),
        strContains line listeningMarker = true →
        processLine ska st line = .ready st) ∧
    (∀ (ska : Nat → α) (st : ScanState α) (t : Nat) (line : List Char)
        (rest : List (Nat × List Char)),
        t < ANVIL_STARTUP_TIMEOUT_MILLIS →
        strContains line listeningMarker = true →
        scanLoop ska ((t, line) :: rest) st = .ready st) ∧
    (∀ (ska : Nat → α) (cfg : Anvil) (probed : Nat) (t : Nat)
        (line : List Char) (rest : List (Nat × List Char)),
        t < ANVIL_STARTUP_TIMEOUT_MILLIS →
        strContains line listeningMarker = true →
        Anvil.spawn ska cfg probed ((t, line) :: rest) =
          .success ⟨[], [], cfg.resolvedPort probed⟩) := by
  refine ⟨fun ska st line hl => ready_step ska st hl, ?_, ?_⟩
  · intro ska st t line rest ht hl
    exact scanLoop_cons_ready rest (by omega) (ready_step ska st hl)
  · intro ska cfg probed t line rest ht hl
    exact spawn_eq_ready ska cfg probed
      (scanLoop_cons_ready rest (by omega) (ready_step ska _ hl))

/-- Witness for C5 at a concrete ready-only stream. -/
theorem claim5_listening_ready_any_state_witness :
    Anvil.spawn (fun k : Nat => k) cfgDefault 0 [(0, readyLine)] =
      .success ⟨[], [], 0⟩ :=
  (claim5_listening_ready_any_state).2.2 (fun k => k) cfgDefault 0 0 readyLine []
    (by decide) (by decide)

/-- Claim C4 as stated is false: a line containing "Private Keys" away
from its start does not change the state of the parser while it awaits
the key header. -/
theorem claim4_counterexample :
    strContains (' ' :: privateKeysMarker) privateKeysMarker = true ∧
    privateKeysMarker.isPrefixOf (' ' :: privateKeysMarker) = false ∧
    processLine (fun k : Nat => k) ⟨false, [], []⟩ (' ' :: privateKeysMarker) =
      .next ⟨false, [], []⟩ := by decide

/-- Claim C4 (amended): in the awaiting-header state, a line that
starts with the literal "Private Keys" (and does not carry the ready
marker) transitions the parser to the key-collecting state. -/
theorem claim4_header_needs_prefix {α : Type} (ska : Nat → α) (st : ScanState α)
    (line : List Char) (_hf : st.is_private_key = false)
    (hnl : strContains line listeningMarker = false)
    (hp : privateKeysMarker.isPrefixOf line = true) :
    processLine ska st line = .next { st with is_private_key := true } :=
  header_step ska st hnl hp

/-- Witness for the amended C4 at a concrete header line. -/
theorem claim4_header_needs_prefix_witness :
    processLine (fun k : Nat => k) ⟨false, [], []⟩
      ("Private Keys available".toList ++ ['\n']) = .next ⟨true, [], []⟩ :=
  claim4_header_needs_prefix _ _ _ rfl (by decide) (by decide)

/-- Claim C2 as stated is false: on timeout the supervisor does not
kill the half-started child; the child is still running when the
timeout panic propagates. -/
theorem claim2_counterexample :
    Anvil.spawn (fun k : Nat => k) cfgDefault 0 [(5000, [])] =
      .panicked .startupTimeout .running ∧
    Anvil.spawn (fun k : Nat => k) cfgDefault 0 [(5000, [])] ≠
      .panicked .startupTimeout .killed := by decide

/-- Claim C2 (amended): when the deadline check observes an elapsed
time of at least the startup deadline, `spawn` fails with the startup
timeout panic, produces no instance, and leaves the child process
running (no kill is issued on this path). -/
theorem claim2_timeout_leaves_child_running {α : Type} (ska : Nat → α)
    (cfg : Anvil) (probed t : Nat) (line : List Char)
    (rest : List (Nat × List Char))
    (ht : ANVIL_STARTUP_TIMEOUT_MILLIS ≤ t) :
    Anvil.spawn ska cfg probed ((t, line) :: rest) =
      .panicked .startupTimeout .running := by
  apply spawn_eq_timeout
  simp only [scanLoop, if_pos ht]

/-- Witness for the amended C2 at a concrete late event. -/
theorem claim2_timeout_leaves_child_running_witness :
    Anvil.spawn (fun k : Nat => k) cfgDefault 0 [(6000, [])] =
      .panicked .startupTimeout .running :=
  claim2_timeout_leaves_child_running (fun k => k) cfgDefault 0 6000 [] []
    (by decide)

/-- Claim C10 (confirmed): in the key-collecting state, a line that
begins with a parenthesis but is shorter than 7 characters makes the
fixed-offset slice of the source go out of range, so `spawn` aborts
with the slice-index panic rather than with a key parse error. -/
theorem claim10_short_line_slice_panic {α : Type} (ska : Nat → α) (cfg : Anvil)
    (probed : Nat) (line : List Char) (rest : List (Nat × List Char))
    (hh : line.head? = some '(') (hl : line.length < 7) :
    Anvil.spawn ska cfg probed ((0, headerLine) :: (0, line) :: rest) =
      .panicked .sliceIndexOutOfRange .running := by
  apply spawn_eq_fatal
  rw [scanLoop_cons_next _ header_or_time_zero
    (header_step ska ⟨false, [], []⟩ (by decide) (by decide))]
  exact scanLoop_cons_fatal _ header_or_time_zero
    (processLine_short_paren ska _ rfl hh hl)

/-- Witness for C10 at the concrete two-character line. -/
theorem claim10_short_line_slice_panic_witness :
    Anvil.spawn (fun k : Nat => k) cfgDefault 0
      [(0, headerLine), (0, ['(', '\n'])] =
      .panicked .sliceIndexOutOfRange .running :=
  claim10_short_line_slice_panic (fun k => k) cfgDefault 0 ['(', '\n'] []
    (by decide) (by decide)



/-- Claim C1 as stated is false: a contract-shaped stream of eleven
well-formed key lines (indices 0 through 10) makes the launch abort on
the two-digit index line instead of returning an instance with eleven
keys. -/
theorem claim1_counterexample :
    (List.replicate 11 (List.replicate 64 '1')).length = 11 ∧
    (∀ p ∈ List.replicate 11 (List.replicate 64 '1'),
      (decodePayload p).isSome) ∧
    Anvil.spawn (fun k : Nat => k) cfgDefault 0
      (mkStream (List.replicate 11 (List.replicate 64 '1'))) =
      .panicked .hexDecodeFailed .running := by decide

/-- Claim C1 (amended): for every scripted startup stream of at most
ten well-formed key lines followed by a ready line, `spawn` succeeds
and its key list decodes the key lines one for one, in line order. -/
theorem claim1_scripted_stream_keys {α : Type} (ska : Nat → α) (cfg : Anvil)
    (probed : Nat) (payloads : List (List Char)) (ks : List Nat)
    (hlen : payloads.length ≤ 10)
    (hdec : decodePayloads payloads = some ks) :
    Anvil.spawn ska cfg probed (mkStream payloads) =
      .success ⟨ks, ks.map ska, cfg.resolvedPort probed⟩ ∧
    ks.length = payloads.length ∧
    ∀ i (hi : i < payloads.length) (hk : i < ks.length),
      decodePayload (payloads.get ⟨i, hi⟩) = some (ks.get ⟨i, hk⟩) :=
  ⟨spawn_mkStream_success ska cfg probed hlen hdec,
   decodePayloads_length hdec,
   decodePayloads_get hdec⟩

/-- Witness for the amended C1 at a one-key stream. -/
theorem claim1_scripted_stream_keys_witness :
    Anvil.spawn (fun k : Nat => k) cfgDefault 0
      (mkStream [List.replicate 64 '1']) =
      .success
        ⟨[0x1111111111111111111111111111111111111111111111111111111111111111],
         [0x1111111111111111111111111111111111111111111111111111111111111111],
         0⟩ :=
  (claim1_scripted_stream_keys (fun k => k) cfgDefault 0 _ _ (by decide)
    (by decide)).1

/-- Claim C3 as stated is false: a line of the key announcement shape
`(0) 0x<64 characters>` whose payload is not valid hex but happens to
contain the ready marker makes `spawn` succeed with the keys collected
so far instead of aborting with a key parse error. -/
theorem claim3_counterexample :
    ("Listening on".toList ++ List.replicate 52 'a').length = 64 ∧
    hexDecode ("Listening on".toList ++ List.replicate 52 'a') = none ∧
    Anvil.spawn (fun k : Nat => k) cfgDefault 0
      [(0, headerLine),
       (0, keyLineD ['0'] ("Listening on".toList ++ List.replicate 52 'a'))] =
      .success ⟨[], [], 0⟩ := by decide

/-- Claim C3 (amended): in the key-collecting state, a line of the key
announcement shape that does not contain the ready marker and whose
payload fails to decode (bad hex or invalid secret key) aborts the
whole launch with a fatal key parse panic; no instance is produced and
the line is not skipped. -/
theorem claim3_malformed_key_line_fatal {α : Type} (ska : Nat → α) (cfg : Anvil)
    (probed : Nat) (line : List Char) (rest : List (Nat × List Char))
    (hh : line.head? = some '(')
    (hnl : strContains line listeningMarker = false)
    (hlen : 7 ≤ line.length)
    (hdec : decodePayload ((line.drop 6).take (line.length - 7)) = none) :
    ∃ e, Anvil.spawn ska cfg probed ((0, headerLine) :: (0, line) :: rest) =
      .panicked e .running ∧ e.isKeyParse = true := by
  obtain ⟨e, he, hkp⟩ := processLine_malformed ska
    (⟨true, [], []⟩ : ScanState α) rfl hh hnl hlen hdec
  refine ⟨e, ?_, hkp⟩
  apply spawn_eq_fatal
  rw [scanLoop_cons_next _ header_or_time_zero
    (header_step ska ⟨false, [], []⟩ (by decide) (by decide))]
  exact scanLoop_cons_fatal _ header_or_time_zero he

/-- Witness for the amended C3: the all-zero payload is valid hex but
an invalid secret key. -/
theorem claim3_malformed_key_line_fatal_witness :
    ∃ e, Anvil.spawn (fun k : Nat => k) cfgDefault 0
      ((0, headerLine) :: (0, keyLineD ['0'] (List.replicate 64 '0')) :: []) =
      .panicked e .running ∧ e.isKeyParse = true :=
  claim3_malformed_key_line_fatal (fun k => k) cfgDefault 0 _ [] (by decide)
    (by decide) (by decide) (by decide)

/-- Claim C9 (confirmed): a key announcement line whose index has two
or more digits makes the fixed-offset payload slice start inside the
"0x" prefix, so its hex decode fails and the scan aborts; consequently
a contract-shaped stream announcing eleven or more well-formed keys
always fails instead of succeeding. -/
theorem claim9_two_digit_index_breaks_parsing {α : Type} (ska : Nat → α) :
    (∀ (st : ScanState α) (ds p : List Char) (k : Nat),
        st.is_private_key = true → 2 ≤ ds.length →
        (∀ c ∈ ds, c.isDigit = true) → decodePayload p = some k →
        processLine ska st (keyLineD ds p) = .fatal .hexDecodeFailed) ∧
    (∀ (cfg : Anvil) (probed : Nat) (payloads : List (List Char))
        (ks : List Nat),
        11 ≤ payloads.length → decodePayloads payloads = some ks →
        Anvil.spawn ska cfg probed (mkStream payloads) =
          .panicked .hexDecodeFailed .running) :=
  ⟨fun st _ds _p _k hf h2 hd hp =>
    processLine_keyLineD_two_digits ska st hf h2 hd hp,
   fun cfg probed _payloads _ks h11 hdec =>
    spawn_mkStream_eleven ska cfg probed h11 hdec⟩

/-- Witness for C9: the line indexed 10 of a twelve-line stream. -/
theorem claim9_two_digit_index_breaks_parsing_witness :
    processLine (fun k : Nat => k) ⟨true, [], []⟩
      (keyLineD ['1', '0'] (List.replicate 64 '1')) =
      .fatal .hexDecodeFailed :=
  (claim9_two_digit_index_breaks_parsing (fun k => k)).1 ⟨true, [], []⟩
    ['1', '0'] (List.replicate 64 '1')
    0x1111111111111111111111111111111111111111111111111111111111111111
    rfl (by decide) (by decide) (by decide)

/-- Claim C6 (confirmed): whenever `spawn` succeeds, the address list
of the instance is exactly the image of its key list under the
derivation function, the two lists have equal length, and the i-th
address is derived from the i-th key. -/
theorem map_get_helper {α β : Type} (f : α → β) (l : List α) (m : List β)
    (h : m = l.map f) : ∀ i (hi : i < l.length) (hm : i < m.length),
      m.get ⟨i, hm⟩ = f (l.get ⟨i, hi⟩) := by
  subst h
  intro i hi hm
  simp

/-- Claim C6 (confirmed): whenever `spawn` succeeds, the address list
of the instance is exactly the image of its key list under the
derivation function, the two lists have equal length, and the i-th
address is derived from the i-th key. -/
theorem claim6_addresses_projection {α : Type} (ska : Nat → α) (cfg : Anvil)
    (probed : Nat) (events : List (Nat × List Char)) (inst : AnvilInstance α)
    (h : Anvil.spawn ska cfg probed events = .success inst) :
    inst.addresses = inst.keys.map ska ∧
    inst.addresses.length = inst.keys.length ∧
    ∀ i (hi : i < inst.keys.length) (ha : i < inst.addresses.length),
      inst.addresses.get ⟨i, ha⟩ = ska (inst.keys.get ⟨i, hi⟩) := by
  rw [Anvil.spawn] at h
  cases hq : scanLoop ska events (⟨false, [], []⟩ : ScanState α) with
  | ready st =>
    simp only [hq] at h
    injection h with h2
    subst h2
    have h1 : st.addresses = st.private_keys.map ska :=
      scanLoop_inv ska events ⟨false, [], []⟩ (by simp) st hq
    refine ⟨h1, by rw [h1]; simp [AnvilInstance.keys], ?_⟩
    exact map_get_helper ska _ _ h1
  | timeout =>
    simp only [hq] at h
    cases h
  | fatal e =>
    simp only [hq] at h
    cases h
  | exhausted st =>
    simp only [hq] at h
    cases h

/-- Witness for C6 at a concrete one-key stream. -/
theorem claim6_addresses_projection_witness :
    ([0x1111111111111111111111111111111111111111111111111111111111111111] :
        List Nat) =
      (AnvilInstance.mk
        [0x1111111111111111111111111111111111111111111111111111111111111111]
        [0x1111111111111111111111111111111111111111111111111111111111111111]
        0 : AnvilInstance Nat).keys.map (fun k => k) :=
  (claim6_addresses_projection (fun k => k) cfgDefault 0
    (mkStream [List.replicate 64 '1'])
    ⟨[0x1111111111111111111111111111111111111111111111111111111111111111],
     [0x1111111111111111111111111111111111111111111111111111111111111111],
     0⟩ (by decide)).1


end EthersAnvil
